import Mathlib

/-!
Shallow embedding of the chaparrOS kernel sources
(src/threads/thread.h, src/userprog/syscall.c, src/userprog/process.h)
and proofs about the file-descriptor syscalls, the fixed-point arithmetic
and the syscall dispatcher.

Conventions of the embedding:
* C `int` / `int64_t` values are modelled as `Int`; where C computes an
  arithmetic right shift on a (possibly negative) signed integer we use
  `Int.fdiv` (gcc's arithmetic shift floors), and where C computes signed
  division `/` we use `Int.tdiv` (C99 division truncates toward zero).
* User memory is a partial map from byte addresses to byte values; an
  unmapped address models a page that faults when probed, and the
  `get_user` fault handler turns that fault into the return value -1.
* External collaborators (`file_length`, `file_read`, `file_tell`,
  `filesys_open`, `palloc_get_page`, `input_getc`) are parameters of the
  modelled functions, as in the spec's section 6.
* Stateful behaviour (the `archivos` lock, printed lines, PCB updates,
  thread termination) is modelled by explicit effect records returned by
  the functions that produce it.
-/

/-! ## Fixed-point arithmetic (src/threads/thread.h, lines 27-36) -/

/-- Number of fractional bits of the fixed-point representation:
`#define CORRIMIENTO 12` (thread.h line 27). -/
def CORRIMIENTO : Nat := 12

/-- Macro `CONV_N(N) ((N)<<CORRIMIENTO)` — convert an int to fixed point. -/
def CONV_N (n : Int) : Int := n * 2 ^ CORRIMIENTO

/-- Macro `ADD_X_N(X,N) ((X) + (N<<CORRIMIENTO))` — add fixed and int. -/
def ADD_X_N (x n : Int) : Int := x + n * 2 ^ CORRIMIENTO

/-- Macro `MUL_X_N(X,N) ((X) * N)` — multiply fixed by int. -/
def MUL_X_N (x n : Int) : Int := x * n

/-- Macro `DIV_X_N(X,N) ((X) / N)` — divide fixed by int (C `/` truncates). -/
def DIV_X_N (x n : Int) : Int := Int.tdiv x n

/-- Macro `DIV_X_Y(X,Y) ((((int64_t)X)<<CORRIMIENTO)/(Y))` — divide fixed by
fixed: widen the numerator to 64 bits, shift it left, then C division. -/
def DIV_X_Y (x y : Int) : Int := Int.tdiv (x * 2 ^ CORRIMIENTO) y

/-- Macro `MUL_X_Y(X,Y) (((int64_t)X)*(Y)>>CORRIMIENTO)` — multiply fixed by
fixed: widen to 64 bits, take the product, arithmetic shift right. -/
def MUL_X_Y (x y : Int) : Int := Int.fdiv (x * y) (2 ^ CORRIMIENTO)

/-- Macro `SUB_X_Y(X,Y) ((X) - (Y))`. -/
def SUB_X_Y (x y : Int) : Int := x - y

/-- Macro `ROUND_X(X)`:
`((X)>=0 ? (((X)+(1<<(CORRIMIENTO-1)))>>CORRIMIENTO): (((X)-(1<<(CORRIMIENTO-1)))>>CORRIMIENTO))`.
Both branches use the arithmetic right shift `>>`, which floors. -/
def ROUND_X (x : Int) : Int :=
  if x ≥ 0 then Int.fdiv (x + 2 ^ (CORRIMIENTO - 1)) (2 ^ CORRIMIENTO)
  else Int.fdiv (x - 2 ^ (CORRIMIENTO - 1)) (2 ^ CORRIMIENTO)

/-! ## User memory and the safe-copy probes (src/userprog/syscall.c) -/

/-- Lowest kernel address: `PHYS_BASE` is 0xC0000000 on this kernel. -/
def PHYS_BASE : Nat := 0xC0000000

/-- Width of pointers and of `unsigned int`: 2^32. -/
def usize : Nat := 4294967296

/-- User memory: a byte value for each mapped address.  `none` models an
unmapped page, whose probe page-faults. -/
structure Memoria where
  load : Nat → Option Nat

/-- Function `get_user` (syscall.c lines 386-398): if the address is below
`PHYS_BASE`, read one byte (`movzbl` zero-extends, so the result is the byte
value in 0..255); the probe is arranged so that a page fault makes the
function return -1; addresses at or above `PHYS_BASE` return -1 directly. -/
def get_user (m : Memoria) (uaddr : Nat) : Int :=
  if uaddr < PHYS_BASE then
    match m.load uaddr with
    | some b => ((b % 256 : Nat) : Int)
    | none => -1
  else -1

/-- Loop body of `get_user_bytes` (syscall.c lines 400-412).  The C loop runs
`i` from 0 while `i < bytes`; here `restantes = bytes - i` is the structural
recursion fuel.  Each step probes `uaddr + i`; on fault it returns `false`
together with the destination as written so far; otherwise it stores
`valor & 0xff` at offset `i` of the destination and continues. -/
def get_user_bytes_bucle (m : Memoria) (uaddr : Nat) :
    Nat → Nat → (Nat → Nat) → Bool × (Nat → Nat)
  | _, 0, dst => (true, dst)
  | i, restantes + 1, dst =>
    let valor := get_user m (uaddr + i)
    if valor = -1 then (false, dst)
    else get_user_bytes_bucle m uaddr (i + 1) restantes
      (fun j => if j = i then valor.toNat % 256 else dst j)

/-- Function `get_user_bytes(uaddr, dst, bytes)` (syscall.c lines 400-412):
returns -1 if any byte probe faulted, else `(int)bytes`; the destination is
returned as mutated by the loop (offset `j` of the result holds byte `j`). -/
def get_user_bytes (m : Memoria) (uaddr : Nat) (dst : Nat → Nat) (bytes : Nat) :
    Int × (Nat → Nat) :=
  match get_user_bytes_bucle m uaddr 0 bytes dst with
  | (true, dst') => ((bytes : Int), dst')
  | (false, dst') => (-1, dst')

/-! ## File descriptors (src/userprog/process.h lines 8-12, syscall.c) -/

/-- Struct `descriptor` (process.h): an integer id plus the open file.  The
`file` pointer may be NULL (`none`); a non-null pointer is an opaque handle. -/
structure descriptor where
  id : Int
  file : Option Nat
deriving DecidableEq

/-- Function `obtener_descriptor(fd)` (syscall.c lines 547-571): NULL when
`fd < 3`, otherwise the first descriptor of the current thread's list whose
id equals `fd`, or NULL when none matches. -/
def obtener_descriptor (descriptores : List descriptor) (fd : Int) :
    Option descriptor :=
  if fd < 3 then none
  else descriptores.find? (fun d => d.id == fd)

/-- Id chosen by `sys_open` (syscall.c lines 516-522): 3 when the list of
descriptors is empty, else the id of the back element plus one. -/
def nuevo_id (descriptores : List descriptor) : Int :=
  match descriptores.getLast? with
  | none => 3
  | some d => d.id + 1

/-- Result of a syscall in the current thread: either a normal return value,
or termination of the process through `sys_exit` with the given code. -/
inductive SysResult (α : Type) where
  | ok : α → SysResult α
  | exited : Int → SysResult α
deriving DecidableEq

/-- Function `sys_open(file)` (syscall.c lines 492-529).  Order of the code:
probe the filename pointer with `get_user` (fault terminates the process);
`palloc_get_page` (modelled by `hay_pagina`; NULL page returns -1);
`filesys_open` (modelled by `file_opened`; NULL file frees the page,
releases the lock and returns -1); otherwise assign the new id, push the
descriptor at the back of the list, release the lock and return the id.
The result carries the returned value and the descriptor list after the
call.  The `archivos` lock is acquired and released on every path. -/
def sys_open (m : Memoria) (hay_pagina : Bool) (file_opened : Option Nat)
    (descriptores : List descriptor) (file_addr : Nat) :
    SysResult (Int × List descriptor) :=
  if get_user m file_addr = -1 then SysResult.exited (-1)
  else if hay_pagina = false then SysResult.ok (-1, descriptores)
  else
    match file_opened with
    | none => SysResult.ok (-1, descriptores)
    | some f =>
      SysResult.ok (nuevo_id descriptores,
        descriptores ++ [⟨nuevo_id descriptores, some f⟩])

/-- Removal performed by `list_remove` in `sys_close`: drop the first
descriptor whose id is `fd` (the element `obtener_descriptor` found). -/
def remover_descriptor : List descriptor → Int → List descriptor
  | [], _ => []
  | d :: resto, fd => if d.id = fd then resto else d :: remover_descriptor resto fd

/-- Function `sys_close(fd)` (syscall.c lines 531-545): look the descriptor
up; when it exists and its file is non-null, `file_close` it, remove it from
the list and free its page; invalid fds are ignored silently.  The result is
the descriptor list after the call. -/
def sys_close (descriptores : List descriptor) (fd : Int) : List descriptor :=
  match obtener_descriptor descriptores fd with
  | some d => if d.file.isSome then remover_descriptor descriptores fd else descriptores
  | none => descriptores

/-- Function `sys_filesize(fd)` (syscall.c lines 573-597).  The code first
calls `get_user((const uint8_t*)fd)`, casting the integer fd to a user
pointer, and terminates the process through `sys_exit(-1)` when that probe
faults.  Only then does it take the lock, look up the descriptor, and return
-1 (NULL descriptor) or `file_length(descriptor->file)`.  `file_length` is
the external file-system call, applied to the descriptor's file pointer
without a null check. -/
def sys_filesize (m : Memoria) (descriptores : List descriptor)
    (file_length : Option Nat → Int) (fd : Int) : SysResult Int :=
  if get_user m ((fd % (usize : Int)).toNat) = -1 then SysResult.exited (-1)
  else
    match obtener_descriptor descriptores fd with
    | none => SysResult.ok (-1)
    | some d => SysResult.ok (file_length d.file)

/-- Keyboard loop of `sys_read` for fd 0 (syscall.c lines 624-635):
`while (counter > 1 && (c = input_getc()) != 0) { ...; counter--; }`.
`teclado` is the stream of `input_getc` results; the function returns the
final value of `counter`.  (The stores into the user buffer are not needed
by any claim and are not modelled.) -/
def leer_teclado (teclado : Nat → Nat) (idx : Nat) : Nat → Nat
  | 0 => 0
  | 1 => 1
  | counter + 2 =>
    if teclado idx % 256 = 0 then counter + 2
    else leer_teclado teclado (idx + 1) (counter + 1)

/-- Function `sys_read(fd, buffer, size)` (syscall.c lines 603-648).  Probes
`buffer` and `buffer + size - 1` (pointer arithmetic wraps modulo 2^32);
a fault on either terminates the process.  Then, under the `archivos` lock
(acquired and released on every remaining path): `retorno` starts at 0; for
fd = 1 the statement `retorno -1;` is an expression with no effect, so the
function returns `retorno`, still 0; for fd = 0 it runs the keyboard loop and
returns `size - counter`; otherwise it returns `file_read(file, size)` for a
valid descriptor with a non-null file, else -1. -/
def sys_read (m : Memoria) (descriptores : List descriptor)
    (file_read : Nat → Nat → Int) (teclado : Nat → Nat)
    (fd : Int) (buffer : Nat) (size : Nat) : SysResult Int :=
  if get_user m buffer = -1 then SysResult.exited (-1)
  else if get_user m ((buffer + size + usize - 1) % usize) = -1 then
    SysResult.exited (-1)
  else
    let retorno : Int := 0
    if fd = 1 then SysResult.ok retorno
    else if fd = 0 then
      SysResult.ok ((size : Int) - (leer_teclado teclado 0 size : Int))
    else
      match obtener_descriptor descriptores fd with
      | some d =>
        match d.file with
        | some f => SysResult.ok (file_read f size)
        | none => SysResult.ok (-1)
      | none => SysResult.ok (-1)

/-- Effect of `sys_seek` on the current thread: whether the thread still
holds the global `archivos` lock when the function returns, and the
`file_seek(file, position)` call performed, if any. -/
structure SeekEffect where
  archivosHeld : Bool
  seeked : Option (Nat × Nat)
deriving DecidableEq

/-- Function `sys_seek(fd, position)` (syscall.c lines 650-660): acquire
`archivos`; when the descriptor exists and its file is non-null, call
`file_seek` and then release the lock; in the else branch the code executes
`return;` directly, so the lock is not released on that path. -/
def sys_seek (descriptores : List descriptor) (fd : Int) (position : Nat) :
    SeekEffect :=
  match obtener_descriptor descriptores fd with
  | some d =>
    match d.file with
    | some f => { archivosHeld := false, seeked := some (f, position) }
    | none => { archivosHeld := true, seeked := none }
  | none => { archivosHeld := true, seeked := none }

/-! ## Process exit and the dispatcher (syscall.c, process.h lines 15-27) -/

/-- Struct `process_control_block` (process.h lines 15-27).  The command
line, the list element and the two semaphores do not influence the claims
about `sys_exit` and are not modelled. -/
structure process_control_block where
  pid : Int
  esperando : Bool
  terminado : Bool
  exit_code : Int
  deboliberar : Bool
deriving DecidableEq

/-- Line printed by `sys_exit`: `printf("%s: exit(%d)\n", name, status)`. -/
def linea_exit (name : String) (status : Int) : String :=
  name ++ ": exit(" ++ toString status ++ ")\n"

/-- Effect of `sys_exit` on the current thread: the lines printed, the PCB
after the update, and whether `thread_exit` was reached. -/
structure ExitEffect where
  salida : List String
  pcb : Option process_control_block
  terminado_thread : Bool
deriving DecidableEq

/-- Function `sys_exit(status)` (syscall.c lines 370-384): print the exit
line, then, when the current thread's PCB is non-null, set
`pcb->terminado = true` and `pcb->exit_code = status`, then `thread_exit`. -/
def sys_exit (name : String) (pcb : Option process_control_block)
    (status : Int) : ExitEffect :=
  let salida := [linea_exit name status]
  let pcb' :=
    match pcb with
    | some p => some { p with terminado := true, exit_code := status }
    | none => none
  { salida := salida, pcb := pcb', terminado_thread := true }

/-- Syscall numbers, from Pintos's `lib/syscall-nr.h` (included by
syscall.c; the header is not part of this repository). -/
def SYS_HALT : Int := 0

/-- Syscall number of EXIT. -/
def SYS_EXIT : Int := 1

/-- Syscall number of EXEC. -/
def SYS_EXEC : Int := 2

/-- Syscall number of WAIT. -/
def SYS_WAIT : Int := 3

/-- Syscall number of CREATE. -/
def SYS_CREATE : Int := 4

/-- Syscall number of REMOVE. -/
def SYS_REMOVE : Int := 5

/-- Syscall number of OPEN. -/
def SYS_OPEN : Int := 6

/-- Syscall number of FILESIZE. -/
def SYS_FILESIZE : Int := 7

/-- Syscall number of READ. -/
def SYS_READ : Int := 8

/-- Syscall number of WRITE. -/
def SYS_WRITE : Int := 9

/-- Syscall number of SEEK. -/
def SYS_SEEK : Int := 10

/-- Syscall number of TELL. -/
def SYS_TELL : Int := 11

/-- Syscall number of CLOSE. -/
def SYS_CLOSE : Int := 12

/-- The thirteen syscall numbers that have a case arm in `syscall_handler`
(syscall.c lines 123-358). -/
def codigos_soportados : List Int :=
  [SYS_HALT, SYS_EXIT, SYS_EXEC, SYS_WAIT, SYS_CREATE, SYS_REMOVE, SYS_OPEN,
   SYS_FILESIZE, SYS_READ, SYS_WRITE, SYS_SEEK, SYS_TELL, SYS_CLOSE]

/-- Line printed by the default arm of `syscall_handler`:
`printf("[ERROR] system call %d is unimplemented!\n", sys_code)`. -/
def linea_unimplemented (n : Int) : String :=
  "[ERROR] system call " ++ toString n ++ " is unimplemented!\n"

/-- Default arm of `syscall_handler` (syscall.c lines 359-362): for a
syscall number with a case arm the default arm does nothing (`none`); for
any other number it prints the unimplemented line and calls `sys_exit(-1)`,
whose effect (the exit line, the PCB update, thread termination) follows. -/
def syscall_handler_desconocido (name : String)
    (pcb : Option process_control_block) (sys_code : Int) : Option ExitEffect :=
  if sys_code ∈ codigos_soportados then none
  else
    let e := sys_exit name pcb (-1)
    some { e with salida := linea_unimplemented sys_code :: e.salida }

/-! ## Invariant of the descriptor table and spec-side definitions -/

/-- Invariant of a thread's descriptor table: every id is at least 3 and the
ids are strictly increasing from front to back. -/
def ids_validos (descriptores : List descriptor) : Prop :=
  (∀ d ∈ descriptores, 3 ≤ d.id) ∧
  (descriptores.map descriptor.id).Pairwise (· < ·)

instance (descriptores : List descriptor) : Decidable (ids_validos descriptores) := by
  unfold ids_validos; infer_instance

/-- Id that claim C6 predicts for a newly opened descriptor, following the
claim's words: (the maximum existing id in the table, else 3) + 1.  Written
for comparison with the id `sys_open` actually assigns. -/
def id_reclamado (descriptores : List descriptor) : Int :=
  ((descriptores.map descriptor.id).max?).getD 3 + 1

/-! ## Concrete memories and inputs used by evaluations -/

/-- Memory with no mapped page at all. -/
def mem_vacia : Memoria := ⟨fun _ => none⟩

/-- Memory mapping exactly the ten bytes at addresses 100..109. -/
def mem_buffer : Memoria := ⟨fun a => if 100 ≤ a ∧ a ≤ 109 then some 65 else none⟩

/-- Memory mapping only address 0 (to the byte 7); address 1 is unmapped. -/
def mem_falla1 : Memoria := ⟨fun a => if a = 0 then some 7 else none⟩

/-- Memory mapping addresses 0 and 1 (to the bytes 7 and 8). -/
def mem_dos : Memoria :=
  ⟨fun a => if a = 0 then some 7 else if a = 1 then some 8 else none⟩

/-- Memory mapping only address 200 (a readable filename byte). -/
def mem_archivo : Memoria := ⟨fun a => if a = 200 then some 104 else none⟩

/-- An example PCB. -/
def pcb_ejemplo : process_control_block :=
  { pid := 5, esperando := false, terminado := false, exit_code := 0,
    deboliberar := false }

/-- An example descriptor table satisfying the invariant. -/
def tabla_ejemplo : List descriptor := [⟨3, some 0⟩, ⟨7, some 1⟩]

/-- Destination buffer holding 0 at every offset. -/
def dst_cero : Nat → Nat := fun _ => 0

/-! ## Helper lemmas -/

/-- In a strictly increasing list of integers, the last element bounds every
element. -/
theorem ultimo_es_cota :
    ∀ (L : List Int), L.Pairwise (· < ·) →
      ∀ b, L.getLast? = some b → ∀ a ∈ L, a ≤ b := by
  intro L
  induction L with
  | nil => intro _ b hb; simp at hb
  | cons x resto ih =>
    intro hp b hb a ha
    obtain ⟨hx, hresto⟩ := List.pairwise_cons.mp hp
    cases hr : resto with
    | nil =>
      subst hr
      simp at hb ha
      omega
    | cons y resto' =>
      have hb' : resto.getLast? = some b := by
        rw [hr] at hb ⊢
        simpa using hb
      have hbmem : b ∈ resto := List.mem_of_mem_getLast? hb'
      rcases List.mem_cons.mp ha with h | h
      · subst h; exact le_of_lt (hx b hbmem)
      · exact ih hresto b hb' a h

/-- In a strictly increasing list of integers, `max?` returns the last
element. -/
theorem max?_de_ordenada (L : List Int) (h : L.Pairwise (· < ·)) :
    ∀ b, L.max? = some b → L.getLast? = some b := by
  intro b hb
  have hanti : Std.Antisymm ((· ≤ ·) : Int → Int → Prop) :=
    ⟨fun h1 h2 => le_antisymm h1 h2⟩
  rw [List.max?_eq_some_iff] at hb
  · obtain ⟨hmem, hmax⟩ := hb
    have hne : L ≠ [] := by intro hL; subst hL; simp at hmem
    obtain ⟨c, hc⟩ := Option.isSome_iff_exists.mp (List.getLast?_isSome.mpr hne)
    have hcb : c ≤ b := hmax c (List.mem_of_mem_getLast? hc)
    have hbc : b ≤ c := ultimo_es_cota L h c hc b hmem
    rw [hc, le_antisymm hbc hcb]
  all_goals simp [le_total]

/-- Removing a descriptor yields a sublist of the original table. -/
theorem remover_sublist (l : List descriptor) (fd : Int) :
    List.Sublist (remover_descriptor l fd) l := by
  induction l with
  | nil => simp [remover_descriptor]
  | cons d resto ih =>
    by_cases hd : d.id = fd
    · simp only [remover_descriptor, if_pos hd]
      exact List.sublist_cons_self d resto
    · simp only [remover_descriptor, if_neg hd]
      exact List.Sublist.cons₂ d ih

/-- The descriptor-table invariant restricts to sublists. -/
theorem ids_validos_sublist {l l' : List descriptor}
    (hsub : List.Sublist l' l) (h : ids_validos l) : ids_validos l' := by
  obtain ⟨h3, hp⟩ := h
  exact ⟨fun d hd => h3 d (hsub.subset hd), hp.sublist (hsub.map descriptor.id)⟩

/-- The id `sys_open` would assign is at least 3. -/
theorem nuevo_id_ge_tres (l : List descriptor) (h3 : ∀ d ∈ l, 3 ≤ d.id) :
    3 ≤ nuevo_id l := by
  unfold nuevo_id
  cases hl : l.getLast? with
  | none => norm_num
  | some b =>
    have := h3 b (List.mem_of_mem_getLast? hl)
    show (3 : Int) ≤ b.id + 1
    omega

/-- Every id in an invariant-satisfying table is below the id `sys_open`
would assign next. -/
theorem ids_lt_nuevo (l : List descriptor)
    (hp : (l.map descriptor.id).Pairwise (· < ·)) :
    ∀ d ∈ l, d.id < nuevo_id l := by
  intro d hd
  cases hl : l.getLast? with
  | none =>
    rw [List.getLast?_eq_none_iff] at hl
    subst hl; simp at hd
  | some b =>
    have hlast : (l.map descriptor.id).getLast? = some b.id := by
      rw [List.getLast?_map, hl]; rfl
    have := ultimo_es_cota (l.map descriptor.id) hp b.id hlast d.id
      (List.mem_map_of_mem descriptor.id hd)
    unfold nuevo_id
    rw [hl]
    show d.id < b.id + 1
    omega

/-- Appending the descriptor `sys_open` builds preserves the invariant. -/
theorem ids_validos_append (l : List descriptor) (f : Option Nat)
    (h : ids_validos l) : ids_validos (l ++ [⟨nuevo_id l, f⟩]) := by
  obtain ⟨h3, hp⟩ := h
  constructor
  · intro d hd
    rcases List.mem_append.mp hd with hd | hd
    · exact h3 d hd
    · simp at hd
      subst hd
      exact nuevo_id_ge_tres l h3
  · rw [List.map_append]
    rw [List.pairwise_append]
    refine ⟨hp, by simp, ?_⟩
    intro a ha b hb
    simp at hb
    subst hb
    obtain ⟨d, hd, hda⟩ := List.mem_map.mp ha
    subst hda
    exact ids_lt_nuevo l hp d hd

/-- Behaviour of the copy loop of `get_user_bytes`, for an arbitrary start
index: a successful pass copies the probed bytes into offsets
`i ≤ j < i + restantes` and leaves every other offset unchanged; a failing
pass stops at the first faulting offset `k`, having copied exactly the
offsets before `k` and touched nothing else. -/
theorem get_user_bytes_bucle_spec (m : Memoria) (uaddr : Nat) :
    ∀ (restantes i : Nat) (dst : Nat → Nat),
      ((get_user_bytes_bucle m uaddr i restantes dst).1 = true →
        (∀ j, i ≤ j → j < i + restantes →
          get_user m (uaddr + j) ≠ -1 ∧
          (get_user_bytes_bucle m uaddr i restantes dst).2 j
            = (get_user m (uaddr + j)).toNat % 256) ∧
        (∀ j, j < i ∨ i + restantes ≤ j →
          (get_user_bytes_bucle m uaddr i restantes dst).2 j = dst j)) ∧
      ((get_user_bytes_bucle m uaddr i restantes dst).1 = false →
        ∃ k, i ≤ k ∧ k < i + restantes ∧ get_user m (uaddr + k) = -1 ∧
          (∀ j, i ≤ j → j < k →
            get_user m (uaddr + j) ≠ -1 ∧
            (get_user_bytes_bucle m uaddr i restantes dst).2 j
              = (get_user m (uaddr + j)).toNat % 256) ∧
          (∀ j, j < i ∨ k ≤ j →
            (get_user_bytes_bucle m uaddr i restantes dst).2 j = dst j)) := by
  intro restantes
  induction restantes with
  | zero =>
    intro i dst
    constructor
    · intro _
      exact ⟨fun j hij hlt => absurd hlt (by omega), fun j _ => rfl⟩
    · intro hfalso
      simp [get_user_bytes_bucle] at hfalso
  | succ n ih =>
    intro i dst
    by_cases hv : get_user m (uaddr + i) = -1
    · have hred : get_user_bytes_bucle m uaddr i (n + 1) dst = (false, dst) := by
        simp [get_user_bytes_bucle, hv]
      rw [hred]
      constructor
      · intro htrue; simp at htrue
      · intro _
        exact ⟨i, le_refl i, by omega, hv,
          fun j h1 h2 => absurd h2 (by omega), fun j _ => rfl⟩
    · have hred : get_user_bytes_bucle m uaddr i (n + 1) dst
          = get_user_bytes_bucle m uaddr (i + 1) n
              (fun j => if j = i then (get_user m (uaddr + i)).toNat % 256 else dst j) := by
        simp [get_user_bytes_bucle, hv]
      rw [hred]
      obtain ⟨iht, ihf⟩ := ih (i + 1)
        (fun j => if j = i then (get_user m (uaddr + i)).toNat % 256 else dst j)
      constructor
      · intro htrue
        obtain ⟨hcopia, hquieto⟩ := iht htrue
        constructor
        · intro j hij hlt
          rcases Nat.lt_or_ge j (i + 1) with hji | hji
          · have hj : j = i := by omega
            subst hj
            have hkj := hquieto j (Or.inl (by omega))
            refine ⟨hv, ?_⟩
            rw [hkj]
            simp
          · exact hcopia j hji (by omega)
        · intro j hj
          have hj' : j < i + 1 ∨ (i + 1) + n ≤ j ∨ j = i := by omega
          have hni : j ≠ i := by omega
          have := hquieto j (by omega)
          rw [this]
          simp [hni]
      · intro hfalso
        obtain ⟨k, hk1, hk2, hkf, hcopia, hquieto⟩ := ihf hfalso
        refine ⟨k, by omega, by omega, hkf, ?_, ?_⟩
        · intro j h1 h2
          rcases Nat.lt_or_ge j (i + 1) with hji | hji
          · have hj : j = i := by omega
            subst hj
            have hkj := hquieto j (Or.inl (by omega))
            refine ⟨hv, ?_⟩
            rw [hkj]
            simp
          · exact hcopia j hji h2
        · intro j hj
          have hni : j ≠ i := by omega
          have := hquieto j (by omega)
          rw [this]
          simp [hni]

/-- C7 (amended): if `get_user_bytes(uaddr, dst, n)` returns -1, then some
byte `k < n` faulted, the destination holds the bytes copied at the offsets
before `k`, and every offset from `k` on is unchanged — so a prefix of the
destination may have been modified before the failure, though the caller
terminates the process on -1 so the partial copy is not observed; otherwise
it returns `n` and the destination holds the `n` bytes copied from `uaddr`,
with every other offset unchanged. -/
theorem get_user_bytes_spec (m : Memoria) (uaddr : Nat) (dst : Nat → Nat) (n : Nat) :
    ((get_user_bytes m uaddr dst n).1 = -1 →
      ∃ k, k < n ∧ get_user m (uaddr + k) = -1 ∧
        (∀ j, j < k →
          get_user m (uaddr + j) ≠ -1 ∧
          (get_user_bytes m uaddr dst n).2 j = (get_user m (uaddr + j)).toNat % 256) ∧
        (∀ j, k ≤ j → (get_user_bytes m uaddr dst n).2 j = dst j)) ∧
    ((get_user_bytes m uaddr dst n).1 ≠ -1 →
      (get_user_bytes m uaddr dst n).1 = (n : Int) ∧
      (∀ j, j < n →
        (get_user_bytes m uaddr dst n).2 j = (get_user m (uaddr + j)).toNat % 256) ∧
      (∀ j, n ≤ j → (get_user_bytes m uaddr dst n).2 j = dst j)) := by
  obtain ⟨ht, hf⟩ := get_user_bytes_bucle_spec m uaddr n 0 dst
  rcases hres : get_user_bytes_bucle m uaddr 0 n dst with ⟨ok, dst'⟩
  rw [hres] at ht hf
  have hval : get_user_bytes m uaddr dst n
      = match (ok, dst') with
        | (true, dst') => ((n : Int), dst')
        | (false, dst') => (-1, dst') := by
    unfold get_user_bytes
    rw [hres]
  cases ok with
  | true =>
    simp only at hval
    obtain ⟨hcopia, hquieto⟩ := ht rfl
    rw [hval]
    constructor
    · intro hneg
      simp at hneg
    · intro _
      exact ⟨rfl, fun j hj => (hcopia j (by omega) (by omega)).2,
        fun j hj => hquieto j (Or.inr (by omega))⟩
  | false =>
    simp only at hval
    obtain ⟨k, _, hk2, hkf, hcopia, hquieto⟩ := hf rfl
    rw [hval]
    constructor
    · intro _
      exact ⟨k, by omega, hkf,
        fun j hj => hcopia j (by omega) hj,
        fun j hj => hquieto j (Or.inr hj)⟩
    · intro hne
      simp at hne

/-! ## Claim theorems -/

/-- C1: evaluation at the failing input.  After `sys_seek(5, 0)` in a thread
with an empty descriptor table — an fd with no descriptor — the current
thread still holds the global file-system lock `archivos`, because the
invalid-descriptor branch of `sys_seek` returns without releasing it; on a
valid descriptor the lock is released.  This refutes the claim that every
exit path of `sys_seek` releases `archivos`. -/
theorem sys_seek_mantiene_lock_en_fd_invalido :
    (sys_seek [] 5 0).archivosHeld = true ∧
    (sys_seek [] 5 0).seeked = none ∧
    (sys_seek tabla_ejemplo 3 9).archivosHeld = false := by decide

/-- C2: evaluation at the failing input.  `sys_filesize(3)` in a thread with
an empty descriptor table, with no user page mapped at address 3 (page 0 is
never mapped), terminates the process with exit code -1 through the
`get_user((const uint8_t*)fd)` probe instead of returning -1: the claim that
an invalid descriptor makes the call return -1 without terminating fails. -/
theorem sys_filesize_termina_con_fd_invalido :
    sys_filesize mem_vacia [] (fun _ => 0) 3 = SysResult.exited (-1) ∧
    sys_filesize mem_vacia [] (fun _ => 0) 2 = SysResult.exited (-1) := by decide

/-- C3: evaluation at the failing input.  `sys_read(1, buffer, 10)` with a
fully mapped buffer returns 0, not -1: the statement `retorno -1;` in the
fd = 1 branch has no effect, so `retorno` keeps its initial value 0. -/
theorem sys_read_fd1_retorna_cero :
    sys_read mem_buffer [] (fun _ _ => 0) (fun _ => 65) 1 100 10
      = SysResult.ok 0 := by decide

/-- C4 counterexample: converting the integer 1 to fixed point yields
`1 << 12 = 4096`, not `1 * 2^14 = 16384`, so the arithmetic does not use a
Q17.14 representation with scale 2^14. -/
theorem conv_n_no_usa_14_bits :
    CONV_N 1 = 4096 ∧ CONV_N 1 ≠ 1 * 2 ^ 14 := by decide

/-- C4 (amended): the fixed-point arithmetic uses a Q19.12 representation
with scale `f = 2^12`: converting an integer `n` yields `n * 2^12`,
fixed-by-fixed multiplication is the (64-bit, hence exact) product shifted
arithmetically right by 12, and fixed-by-fixed division shifts the widened
numerator left by 12 before the (truncating) division; consequently the
product of the conversions of two integers converts their product. -/
theorem aritmetica_fija_q19_12 (n x y : Int) :
    CONV_N n = n * 2 ^ 12 ∧
    MUL_X_Y x y = Int.fdiv (x * y) (2 ^ 12) ∧
    DIV_X_Y x y = Int.tdiv (x * 2 ^ 12) y ∧
    MUL_X_Y (CONV_N x) (CONV_N y) = CONV_N (x * y) := by
  refine ⟨rfl, rfl, rfl, ?_⟩
  unfold MUL_X_Y CONV_N
  have h1 : x * 2 ^ CORRIMIENTO * (y * 2 ^ CORRIMIENTO)
      = x * y * 2 ^ CORRIMIENTO * 2 ^ CORRIMIENTO := by ring
  rw [h1]
  exact Int.mul_fdiv_cancel _ (pow_ne_zero CORRIMIENTO (by decide))

/-- C5: evaluation at the failing input.  `ROUND_X(CONV_N(-1))` is -2, not
-1: both branches of `ROUND_X` use the arithmetic right shift (which
floors), not the truncating division `(x - f/2)/f` stated by the macro's own
comment; with truncating division the round trip would return -1, and on
non-negative values (where flooring and truncation agree) the round trip
does return the argument. -/
theorem round_x_piso_en_negativos :
    ROUND_X (CONV_N (-1)) = -2 ∧
    Int.tdiv (CONV_N (-1) - 2 ^ (CORRIMIENTO - 1)) (2 ^ CORRIMIENTO) = -1 ∧
    ROUND_X (CONV_N 1) = 1 := by decide

/-- C6 counterexample: opening a file in a thread whose descriptor table is
empty succeeds with id 3, whereas the claim's formula — (the maximum
existing id in the table, else 3) + 1 — yields 4 at the same input. -/
theorem sys_open_tabla_vacia_asigna_3 :
    sys_open mem_archivo true (some 0) [] 200 = SysResult.ok (3, [⟨3, some 0⟩]) ∧
    id_reclamado [] = 4 ∧ (3 : Int) ≠ 4 := by decide

/-- C6 (amended): when the filename pointer probe succeeds and the
descriptor table satisfies its invariant, a successful `sys_open` assigns
the id (maximum existing id) + 1 when the table is nonempty and 3 when it is
empty, appends the descriptor at the back and returns that id; it returns -1
when no descriptor page can be allocated or the file cannot be opened. -/
theorem sys_open_asigna_id (m : Memoria) (addr : Nat) (file_opened : Option Nat)
    (l : List descriptor) (hptr : get_user m addr ≠ -1) (hids : ids_validos l) :
    (∀ f, file_opened = some f →
      sys_open m true file_opened l addr
        = SysResult.ok (nuevo_id l, l ++ [⟨nuevo_id l, some f⟩])) ∧
    (l = [] → nuevo_id l = 3) ∧
    (∀ b, (l.map descriptor.id).max? = some b → nuevo_id l = b + 1) ∧
    (sys_open m false file_opened l addr = SysResult.ok (-1, l)) ∧
    (file_opened = none → sys_open m true file_opened l addr = SysResult.ok (-1, l)) := by
  refine ⟨?_, ?_, ?_, ?_, ?_⟩
  · intro f hf
    subst hf
    simp [sys_open, hptr]
  · intro hl
    subst hl
    rfl
  · intro b hb
    have hlast := max?_de_ordenada (l.map descriptor.id) hids.2 b hb
    rw [List.getLast?_map] at hlast
    cases hl : l.getLast? with
    | none => rw [hl] at hlast; simp at hlast
    | some d =>
      rw [hl] at hlast
      simp at hlast
      unfold nuevo_id
      rw [hl]
      show d.id + 1 = b + 1
      rw [hlast]
  · simp [sys_open, hptr]
  · intro hf
    subst hf
    simp [sys_open, hptr]

/-- C6 witness: applying the amended theorem at a concrete memory, filename
address and two-descriptor table; the assigned id evaluates to 8. -/
theorem sys_open_asigna_id_testigo :
    sys_open mem_archivo true (some 9) tabla_ejemplo 200
      = SysResult.ok (nuevo_id tabla_ejemplo,
          tabla_ejemplo ++ [⟨nuevo_id tabla_ejemplo, some 9⟩]) ∧
    nuevo_id tabla_ejemplo = 8 := by
  refine ⟨(sys_open_asigna_id mem_archivo 200 (some 9) tabla_ejemplo
    (by decide) (by decide)).1 9 rfl, by decide⟩

/-- C7 counterexample: with only address 0 mapped (byte value 7),
`get_user_bytes(0, dst, 2)` on a destination holding 0 everywhere returns -1
— the second byte faulted — yet offset 0 of the destination has been
overwritten with 7, so a partial commit is visible in the destination,
refuting the claim that no byte of dst has been modified. -/
theorem get_user_bytes_escribe_prefijo :
    (get_user_bytes mem_falla1 0 dst_cero 2).1 = -1 ∧
    (get_user_bytes mem_falla1 0 dst_cero 2).2 0 = 7 ∧
    dst_cero 0 = 0 := by decide

/-- C7 witness: applying the contract at a concrete two-byte read that
succeeds. -/
theorem get_user_bytes_contrato_testigo :
    (get_user_bytes mem_dos 0 dst_cero 2).1 = 2 := by
  have h := (get_user_bytes_spec mem_dos 0 dst_cero 2).2 (by decide)
  exact h.1

/-- C8: for every exit status, `sys_exit` prints exactly one line, the line
`"%s: exit(%d)\n"` formatted with the thread's name and the status; when the
thread's PCB is non-null it is updated with `terminado = true` and
`exit_code = status`; and the thread is terminated. -/
theorem sys_exit_imprime_y_actualiza_pcb (name : String)
    (pcb : Option process_control_block) (status : Int) :
    (sys_exit name pcb status).salida = [linea_exit name status] ∧
    (sys_exit name pcb status).salida.length = 1 ∧
    (∀ p, pcb = some p → (sys_exit name pcb status).pcb
        = some { p with terminado := true, exit_code := status }) ∧
    (pcb = none → (sys_exit name pcb status).pcb = none) ∧
    (sys_exit name pcb status).terminado_thread = true := by
  refine ⟨rfl, rfl, ?_, ?_, rfl⟩
  · intro p hp
    subst hp
    rfl
  · intro hp
    subst hp
    rfl

/-- C8 witness: the PCB update of a concrete `sys_exit(7)` call. -/
theorem sys_exit_imprime_testigo :
    (sys_exit "a" (some pcb_ejemplo) 7).pcb
      = some { pid := 5, esperando := false, terminado := true, exit_code := 7,
               deboliberar := false } := by
  have h := (sys_exit_imprime_y_actualiza_pcb "a" (some pcb_ejemplo) 7).2.2.1
    pcb_ejemplo rfl
  simpa [pcb_ejemplo] using h

/-- C9: for every syscall number without a case arm in the dispatcher, the
default arm prints the line `"[ERROR] system call <n> is unimplemented!\n"`
(followed only by the exit line that `sys_exit` itself prints) and
terminates the process with exit code -1, recorded in the PCB when there is
one. -/
theorem syscall_desconocido_imprime_y_termina (name : String)
    (pcb : Option process_control_block) (n : Int)
    (h : n ∉ codigos_soportados) :
    syscall_handler_desconocido name pcb n
      = some { salida := [linea_unimplemented n, linea_exit name (-1)],
               pcb := pcb.map (fun p => { p with terminado := true, exit_code := -1 }),
               terminado_thread := true } := by
  unfold syscall_handler_desconocido
  rw [if_neg h]
  cases pcb <;> rfl

/-- C9 witness: the effect of the unknown syscall number 999. -/
theorem syscall_desconocido_testigo :
    syscall_handler_desconocido "a" none 999
      = some { salida := [linea_unimplemented 999, linea_exit "a" (-1)],
               pcb := none, terminado_thread := true } := by
  have h := syscall_desconocido_imprime_y_termina "a" none 999 (by decide)
  simpa using h

/-- C10: in every thread's descriptor table satisfying the invariant (all
ids at least 3, ids strictly increasing from front to back), any table
produced by `sys_open` satisfies the invariant again, `sys_close` preserves
it, the back element carries the maximum id, and the id `sys_open` would
assign next collides with no live descriptor. -/
theorem tabla_descriptores_invariante (l : List descriptor) (fd : Int)
    (h : ids_validos l) :
    (∀ (m : Memoria) (pg : Bool) (fo : Option Nat) (addr : Nat) (i : Int)
      (l' : List descriptor),
      sys_open m pg fo l addr = SysResult.ok (i, l') → ids_validos l') ∧
    ids_validos (sys_close l fd) ∧
    (∀ b, l.getLast? = some b → ∀ d ∈ l, d.id ≤ b.id) ∧
    (∀ d ∈ l, d.id ≠ nuevo_id l) := by
  refine ⟨?_, ?_, ?_, ?_⟩
  · intro m pg fo addr i l' hopen
    unfold sys_open at hopen
    by_cases hp : get_user m addr = -1
    · rw [if_pos hp] at hopen
      exact absurd hopen (by simp)
    · rw [if_neg hp] at hopen
      by_cases hpg : pg = false
      · rw [if_pos hpg] at hopen
        injection hopen with hpair
        injection hpair with h1 h2
        rw [← h2]
        exact h
      · rw [if_neg hpg] at hopen
        cases fo with
        | none =>
          injection hopen with hpair
          injection hpair with h1 h2
          rw [← h2]
          exact h
        | some f =>
          injection hopen with hpair
          injection hpair with h1 h2
          rw [← h2]
          exact ids_validos_append l (some f) h
  · unfold sys_close
    cases hD : obtener_descriptor l fd with
    | none => exact h
    | some d =>
      show ids_validos (if d.file.isSome then remover_descriptor l fd else l)
      by_cases hf : d.file.isSome = true
      · rw [if_pos hf]
        exact ids_validos_sublist (remover_sublist l fd) h
      · rw [if_neg hf]
        exact h
  · intro b hb d hd
    have hlast : (l.map descriptor.id).getLast? = some b.id := by
      rw [List.getLast?_map, hb]
      rfl
    exact ultimo_es_cota (l.map descriptor.id) h.2 b.id hlast d.id
      (List.mem_map_of_mem descriptor.id hd)
  · intro d hd
    exact ne_of_lt (ids_lt_nuevo l h.2 d hd)

/-- C10 witness: the invariant holds after closing descriptor 3 of a
concrete invariant-satisfying table. -/
theorem tabla_descriptores_invariante_testigo :
    ids_validos (sys_close tabla_ejemplo 3) :=
  (tabla_descriptores_invariante tabla_ejemplo 3 (by decide)).2.1
